import Mathlib

/-!
Shallow embedding of the cap-table recalculation engine of
`src/app/page.tsx` (startup dilution calculator).

JavaScript numbers are modelled as rationals (`ℚ`); `Math.round` is
modelled as `⌊x + 1/2⌋` (round half towards plus infinity), and
`Number(x.toFixed(4))` as rounding to four decimal places with the same
tie rule.  Strings stay `String`, arrays become `List`.
-/

namespace CapModel

/-- Model of JavaScript `Math.round`: nearest integer, ties towards `+∞`. -/
def jsRound (q : ℚ) : ℚ := ((⌊q + 1/2⌋ : ℤ) : ℚ)

/-- Model of `Number(x.toFixed(4))`: round to 4 decimal places. -/
def round4 (q : ℚ) : ℚ := jsRound (q * 10000) / 10000

/-- The three currencies of the model (`"USD" | "GBP" | "EUR"`). -/
inductive Currency
  | USD
  | GBP
  | EUR
deriving DecidableEq, Repr

/-- `valuationType ∈ {"pre-money", "post-money"}`. -/
inductive ValuationType
  | preMoney
  | postMoney
deriving DecidableEq, Repr

/-- `valuationSource ∈ {"manual", "reference"}`. -/
inductive ValuationSource
  | manual
  | reference
deriving DecidableEq, Repr

/-- `interface Shareholder` of the source. -/
structure Shareholder where
  name : String
  shares : ℚ
  percentage : ℚ
deriving DecidableEq, Repr

/-- `interface ExchangeRates` of the source: the six directed rates. -/
structure ExchangeRates where
  usdGbp : ℚ
  gbpUsd : ℚ
  usdEur : ℚ
  eurUsd : ℚ
  gbpEur : ℚ
  eurGbp : ℚ
deriving DecidableEq, Repr

/-- `deriveAllExchangeRates` of the source: derive all six directed rates
from the two primary rates `USD-GBP` and `USD-EUR`. -/
def deriveAllExchangeRates (usdGbp usdEur : ℚ) : ExchangeRates :=
  let gbpUsd : ℚ := if 0 < usdGbp then 1 / usdGbp else 0
  let gbpEur : ℚ := if 0 < usdGbp then usdEur / usdGbp else 0
  let eurGbp : ℚ := if 0 < usdEur then usdGbp / usdEur else 0
  let eurUsd : ℚ := if 0 < usdEur then 1 / usdEur else 0
  { usdGbp := usdGbp
    gbpUsd := round4 gbpUsd
    usdEur := usdEur
    eurUsd := round4 eurUsd
    gbpEur := round4 gbpEur
    eurGbp := round4 eurGbp }

/-- Lookup of `allExchangeRates[`from`-`to`]`.  A key with equal source and
target currency is absent from the table; absence is modelled as `0`
(JavaScript `undefined` and `0` are both falsy at the only use site). -/
def lookupRate (rates : ExchangeRates) : Currency → Currency → ℚ
  | Currency.USD, Currency.GBP => rates.usdGbp
  | Currency.GBP, Currency.USD => rates.gbpUsd
  | Currency.USD, Currency.EUR => rates.usdEur
  | Currency.EUR, Currency.USD => rates.eurUsd
  | Currency.GBP, Currency.EUR => rates.gbpEur
  | Currency.EUR, Currency.GBP => rates.eurGbp
  | _, _ => 0

/-- `convertCurrency` of the source: identity when the currencies agree,
otherwise multiply by the looked-up rate, falling back to `1` when the rate
is falsy (`rate || 1`). -/
def convertCurrency (rates : ExchangeRates) (amount : ℚ) (src dst : Currency) : ℚ :=
  if src = dst then amount
  else amount * (if lookupRate rates src dst = 0 then 1 else lookupRate rates src dst)

/-- `interface FundingRound` of the source (the `type: "funding"` tag is
carried by the `Event` constructor below). -/
structure FundingRound where
  id : String
  name : String
  currency : Currency
  investmentAmount : ℚ
  valuationType : ValuationType
  valuationSource : ValuationSource
  manualValuation : ℚ
  referenceRoundId : String
  discountPercentage : ℚ
  calculatedValuation : ℚ
  preMoneyValuation : ℚ
  postMoneyValuation : ℚ
  newInvestorName : String
  capTable : List Shareholder
  order : ℤ
deriving DecidableEq, Repr

/-- `interface OptionPool` of the source (the `type: "option-pool"` tag is
carried by the `Event` constructor below). -/
structure OptionPool where
  id : String
  name : String
  percentage : ℚ
  capTable : List Shareholder
  order : ℤ
deriving DecidableEq, Repr

/-- `type Event = FundingRound | OptionPool`. -/
inductive Event
  | funding (r : FundingRound)
  | pool (p : OptionPool)
deriving DecidableEq, Repr

/-- The shared `id` field of an event. -/
def Event.id : Event → String
  | Event.funding r => r.id
  | Event.pool p => p.id

/-- The shared `order` field of an event. -/
def Event.order : Event → ℤ
  | Event.funding r => r.order
  | Event.pool p => p.order

/-- The shared `capTable` field of an event. -/
def Event.capTable : Event → List Shareholder
  | Event.funding r => r.capTable
  | Event.pool p => p.capTable

/-- Replace an event's `order` field. -/
def setOrder : Event → ℤ → Event
  | Event.funding r, k => Event.funding { r with order := k }
  | Event.pool p, k => Event.pool { p with order := k }

/-- Replace an event's `capTable` field. -/
def setCapTable : Event → List Shareholder → Event
  | Event.funding r, t => Event.funding { r with capTable := t }
  | Event.pool p, t => Event.pool { p with capTable := t }

/-- One insertion step of the stable sort modelling
`[...updatedEvents].sort((a, b) => a.order - b.order)`: the new element is
placed after every already-placed element of smaller or equal `order`. -/
def insertByOrder (x : Event) : List Event → List Event
  | [] => [x]
  | y :: ys => if y.order ≤ x.order then y :: insertByOrder x ys else x :: y :: ys

/-- Stable ascending sort by `order` (JavaScript `Array.prototype.sort`
with comparator `a.order - b.order` is a stable sort). -/
def sortByOrder (l : List Event) : List Event :=
  l.foldl (fun acc x => insertByOrder x acc) []

/-- `getInitialCapTable` of the source. -/
def getInitialCapTable (founderName : String) : List Shareholder :=
  [⟨founderName, 1000000, 100⟩]

/-- Shared derivation of `preMoneyValuation` / `postMoneyValuation` from a
`calculatedValuation`, with `capTable` reset to `[]`, exactly as both the
seeding pass and the reference-resolution pass of `recalculateAllEvents`
write their result rounds. -/
def applyValuation (r : FundingRound) (cv : ℚ) : FundingRound :=
  match r.valuationType with
  | ValuationType.preMoney =>
      { r with calculatedValuation := cv
               preMoneyValuation := cv
               postMoneyValuation := cv + r.investmentAmount
               capTable := [] }
  | ValuationType.postMoney =>
      { r with calculatedValuation := cv
               preMoneyValuation := max 0 (cv - r.investmentAmount)
               postMoneyValuation := cv
               capTable := [] }

/-- First pass of `recalculateAllEvents` on a funding round: manual rounds
get `calculatedValuation = manualValuation`, reference rounds are seeded
with the unresolved sentinel `0`; pre/post money are derived either way. -/
def seedRound (r : FundingRound) : FundingRound :=
  applyValuation r
    (match r.valuationSource with
     | ValuationSource.manual => r.manualValuation
     | ValuationSource.reference => 0)

/-- First pass of `recalculateAllEvents` on an arbitrary event: funding
rounds are seeded, option pools are pushed through unchanged
(`tempResults.push({ ...event })`). -/
def seedEvent : Event → Event
  | Event.funding r => Event.funding (seedRound r)
  | Event.pool p => Event.pool p

/-- `tempResults.find((e) => e.id === round.referenceRoundId && e.type ===
"funding")`: the first funding round with the given id. -/
def findFundingById : List Event → String → Option FundingRound
  | [], _ => none
  | Event.funding r :: rest, rid => if r.id = rid then some r else findFundingById rest rid
  | Event.pool _ :: rest, rid => findFundingById rest rid

/-- The reference valuation selected from the target round by the
referencing round's own `valuationType`. -/
def selectRefVal (r t : FundingRound) : ℚ :=
  match r.valuationType with
  | ValuationType.preMoney => t.preMoneyValuation
  | ValuationType.postMoney => t.postMoneyValuation

/-- The body of the reference-resolution loop of `recalculateAllEvents`
for a single event: given the current (partially updated) event array,
either update a still-unresolved reference round whose target is resolved
with a positive selected valuation, or leave the event unchanged.  The
returned boolean is this event's contribution to
`hasUnresolvedReferences` (set only when the target is missing or not yet
resolved). -/
def resolveStep (rates : ExchangeRates) (current : List Event) : Event → Event × Bool
  | Event.funding r =>
      if r.valuationSource = ValuationSource.reference ∧ r.calculatedValuation = 0 then
        match findFundingById current r.referenceRoundId with
        | some t =>
            if 0 < t.preMoneyValuation ∨ 0 < t.postMoneyValuation then
              if 0 < selectRefVal r t then
                (Event.funding (applyValuation r
                  (convertCurrency rates (selectRefVal r t) t.currency r.currency *
                    ((100 - r.discountPercentage) / 100))), false)
              else (Event.funding r, false)
            else (Event.funding r, true)
        | none => (Event.funding r, true)
      else (Event.funding r, false)
  | Event.pool p => (Event.pool p, false)

/-- One pass of the resolution loop: walk the array left to right,
threading in-place updates (`tempResults[i] = ...`), OR-ing the
unresolved flags. -/
def resolvePassAux (rates : ExchangeRates) : List Event → List Event → Bool → List Event × Bool
  | acc, [], flag => (acc, flag)
  | acc, e :: rest, flag =>
      let s := resolveStep rates (acc ++ e :: rest) e
      resolvePassAux rates (acc ++ [s.1]) rest (flag || s.2)

/-- One full pass over the array with the unresolved flag reset to
`false`, as at the top of the `while` body. -/
def resolvePass (rates : ExchangeRates) (l : List Event) : List Event × Bool :=
  resolvePassAux rates [] l false

/-- The bounded fixed-point iteration (`maxIterations = 10`): run a pass;
if it reported an unresolved reference and iterations remain, run again. -/
def resolveLoop (rates : ExchangeRates) : ℕ → List Event → List Event
  | 0, l => l
  | n + 1, l =>
      let s := resolvePass rates l
      if s.2 then resolveLoop rates n s.1 else s.1

/-- `calculateCapTableForFundingRound` of the source. -/
def calculateCapTableForFundingRound (round : FundingRound)
    (previousCapTable : List Shareholder) : List Shareholder :=
  if round.postMoneyValuation ≤ 0 ∨ round.investmentAmount ≤ 0 then previousCapTable
  else if round.investmentAmount / round.postMoneyValuation * 100 ≤ 0 ∨
          100 ≤ round.investmentAmount / round.postMoneyValuation * 100 then previousCapTable
  else
    let newInvestorPercentage := round.investmentAmount / round.postMoneyValuation * 100
    let dilutionFactor := (100 - newInvestorPercentage) / 100
    let diluted := previousCapTable.filterMap fun s =>
      let newPercentage := s.percentage * dilutionFactor
      if 0.01 < newPercentage then
        some ⟨s.name, jsRound (s.shares * dilutionFactor), newPercentage⟩
      else none
    diluted ++ [⟨round.newInvestorName,
                 jsRound (newInvestorPercentage / 100 * 1000000),
                 newInvestorPercentage⟩]

/-- `calculateCapTableForOptionPool` of the source.  Note: unlike the
funding-round variant, existing shareholders are kept regardless of their
diluted percentage. -/
def calculateCapTableForOptionPool (pool : OptionPool)
    (previousCapTable : List Shareholder) : List Shareholder :=
  if pool.percentage ≤ 0 ∨ 100 ≤ pool.percentage then previousCapTable
  else
    let dilutionFactor := (100 - pool.percentage) / 100
    (previousCapTable.map fun s =>
      ⟨s.name, jsRound (s.shares * dilutionFactor), s.percentage * dilutionFactor⟩)
      ++ [⟨pool.name, jsRound (pool.percentage / 100 * 1000000), pool.percentage⟩]

/-- The cap table produced by one event from the previous cap table
(third pass of `recalculateAllEvents`, dispatching on the event tag). -/
def applyEventTable : Event → List Shareholder → List Shareholder
  | Event.funding r, ct => calculateCapTableForFundingRound r ct
  | Event.pool p, ct => calculateCapTableForOptionPool p ct

/-- Third pass of `recalculateAllEvents`: walk the resolved events in
order, threading `currentCapTable` forward and stamping each event with
its resulting cap table. -/
def capTablePass : List Shareholder → List Event → List Event
  | _, [] => []
  | ct, e :: rest =>
      let t := applyEventTable e ct
      setCapTable e t :: capTablePass t rest

/-- `recalculateAllEvents` of the source: sort by `order`, seed
valuations, resolve references with at most 10 passes, then compute the
cap-table chain from the founder baseline. -/
def recalculateAllEvents (rates : ExchangeRates) (events : List Event)
    (founderName : String) : List Event :=
  capTablePass (getInitialCapTable founderName)
    (resolveLoop rates 10 ((sortByOrder events).map seedEvent))

/-- `getNextOrder` of the source: `max(existing orders) + 1`, or `1` for
an empty list. -/
def getNextOrder : List Event → ℤ
  | [] => 1
  | e :: es => (es.foldl (fun m x => max m x.order) e.order) + 1

/-- The fresh funding round constructed by `addRound`.  The
`Date.now()`-based id and the `Series ...` display strings are
environment-dependent and are taken as parameters. -/
def newFundingRound (freshId roundName investorName : String) (ord : ℤ) : FundingRound :=
  { id := freshId
    name := roundName
    currency := Currency.USD
    investmentAmount := 0
    valuationType := ValuationType.preMoney
    valuationSource := ValuationSource.manual
    manualValuation := 0
    referenceRoundId := ""
    discountPercentage := 0
    calculatedValuation := 0
    preMoneyValuation := 0
    postMoneyValuation := 0
    newInvestorName := investorName
    capTable := []
    order := ord }

/-- The fresh option pool constructed by `addOptionPool` (default
`percentage = 10`); id and display name are parameters as for
`newFundingRound`. -/
def newOptionPool (freshId poolName : String) (ord : ℤ) : OptionPool :=
  { id := freshId
    name := poolName
    percentage := 10
    capTable := []
    order := ord }

/-- `addRound` of the source, as the new event list it stores.  With an
insertion point, later events are shifted up and the result is
recalculated; without one, the new round is appended to the previous list
directly (this branch performs no recalculation). -/
def addRoundModel (rates : ExchangeRates) (events : List Event) (founderName : String)
    (freshId roundName investorName : String) : Option ℤ → List Event
  | some insertAfterOrder =>
      recalculateAllEvents rates
        ((events.map fun e => if insertAfterOrder < e.order then setOrder e (e.order + 1) else e)
          ++ [Event.funding (newFundingRound freshId roundName investorName (insertAfterOrder + 1))])
        founderName
  | none =>
      events ++ [Event.funding (newFundingRound freshId roundName investorName (getNextOrder events))]

/-- `addOptionPool` of the source, as the new event list it stores; both
branches recalculate. -/
def addOptionPoolModel (rates : ExchangeRates) (events : List Event) (founderName : String)
    (freshId poolName : String) : Option ℤ → List Event
  | some insertAfterOrder =>
      recalculateAllEvents rates
        ((events.map fun e => if insertAfterOrder < e.order then setOrder e (e.order + 1) else e)
          ++ [Event.pool (newOptionPool freshId poolName (insertAfterOrder + 1))])
        founderName
  | none =>
      recalculateAllEvents rates
        (events ++ [Event.pool (newOptionPool freshId poolName (getNextOrder events))])
        founderName

/-- `updateEvent` of the source: replace one field on the event with the
matching id, then recalculate.  The dynamic `[field]: value` assignment
is abstracted as the update function `upd`. -/
def updateEventModel (rates : ExchangeRates) (events : List Event) (founderName : String)
    (eventId : String) (upd : Event → Event) : List Event :=
  recalculateAllEvents rates
    (events.map fun e => if e.id = eventId then upd e else e) founderName

/-- The pre-pipeline part of `removeEvent`: drop the event with the given
id, then clear `referenceRoundId` and force `valuationSource = "manual"`
on every funding round that referenced it. -/
def removeEventPrep (events : List Event) (eventId : String) : List Event :=
  (events.filter fun e => e.id ≠ eventId).map fun e =>
    match e with
    | Event.funding r =>
        if r.referenceRoundId = eventId then
          Event.funding { r with referenceRoundId := "", valuationSource := ValuationSource.manual }
        else Event.funding r
    | Event.pool p => Event.pool p

/-- `removeEvent` of the source: cleanup then full recalculation. -/
def removeEventModel (rates : ExchangeRates) (events : List Event) (founderName : String)
    (eventId : String) : List Event :=
  recalculateAllEvents rates (removeEventPrep events eventId) founderName

/-- Does this event satisfy `e.type === "funding" && e.id === rid`? -/
def eventIsFundingWithId (e : Event) (rid : String) : Prop :=
  match e with
  | Event.funding r => r.id = rid
  | Event.pool _ => False

instance (e : Event) (rid : String) : Decidable (eventIsFundingWithId e rid) := by
  unfold eventIsFundingWithId
  cases e <;> infer_instance

/-- The default derived exchange-rate table
(`deriveAllExchangeRates(DEFAULT_PRIMARY_EXCHANGE_RATES)`). -/
def defaultRates : ExchangeRates := deriveAllExchangeRates 0.79 0.92

/-- Derivation of the six-entry exchange-rate table written directly from
the specification's words: `GBP→USD = 1/u` (0 if `u ≤ 0`), `EUR→USD = 1/e`
(0 if `e ≤ 0`), `GBP→EUR = e/u` (0 if `u ≤ 0`), `EUR→GBP = u/e` (0 if
`e ≤ 0`), the four derived rates rounded to 4 decimal places, the two
primaries stored at full precision. -/
def deriveAllExchangeRatesSpec (u e : ℚ) : ExchangeRates :=
  { usdGbp := u
    usdEur := e
    gbpUsd := round4 (if u ≤ 0 then 0 else 1 / u)
    eurUsd := round4 (if e ≤ 0 then 0 else 1 / e)
    gbpEur := round4 (if u ≤ 0 then 0 else e / u)
    eurGbp := round4 (if e ≤ 0 then 0 else u / e) }

/-- The input-side (non-derived) fields of a funding round: everything the
recalculation pipeline reads but never writes. -/
structure FundingStatic where
  id : String
  name : String
  currency : Currency
  investmentAmount : ℚ
  valuationType : ValuationType
  valuationSource : ValuationSource
  manualValuation : ℚ
  referenceRoundId : String
  discountPercentage : ℚ
  newInvestorName : String
  order : ℤ
deriving DecidableEq

/-- The input-side fields of an option pool. -/
structure PoolStatic where
  id : String
  name : String
  percentage : ℚ
  order : ℤ
deriving DecidableEq

/-- The input-side projection of an event. -/
inductive EventStatic
  | funding (s : FundingStatic)
  | pool (s : PoolStatic)
deriving DecidableEq

/-- Project a funding round to its input-side fields. -/
def staticOfRound (r : FundingRound) : FundingStatic :=
  ⟨r.id, r.name, r.currency, r.investmentAmount, r.valuationType, r.valuationSource,
   r.manualValuation, r.referenceRoundId, r.discountPercentage, r.newInvestorName, r.order⟩

/-- Project an event to its input-side fields. -/
def staticOf : Event → EventStatic
  | Event.funding r => EventStatic.funding (staticOfRound r)
  | Event.pool p => EventStatic.pool ⟨p.id, p.name, p.percentage, p.order⟩

/-- The `order` of an event's input-side projection. -/
def EventStatic.order : EventStatic → ℤ
  | EventStatic.funding s => s.order
  | EventStatic.pool s => s.order

/-- Simulation relation between event lists after seeding: funding rounds
agree exactly, option pools agree except possibly on their (dead, always
overwritten) `capTable` field. -/
def EvSim : Event → Event → Prop
  | Event.funding r, Event.funding r' => r = r'
  | Event.pool p, Event.pool p' =>
      p.id = p'.id ∧ p.name = p'.name ∧ p.percentage = p'.percentage ∧ p.order = p'.order
  | _, _ => False

/-- Pointwise lifting of `EvSim` to lists. -/
def EvSimList : List Event → List Event → Prop
  | [], [] => True
  | a :: l, b :: m => EvSim a b ∧ EvSimList l m
  | _, _ => False

/-- Invariant of the resolution passes: an unresolved reference round
(`calculatedValuation = 0`) always carries the valuations the seeding pass
derived from the sentinel `0`, and an empty `capTable`. -/
def GoodShape (e : Event) : Prop :=
  ∀ r : FundingRound, e = Event.funding r →
    r.valuationSource = ValuationSource.reference → r.calculatedValuation = 0 →
    r.preMoneyValuation =
        (match r.valuationType with
         | ValuationType.preMoney => 0
         | ValuationType.postMoney => max 0 (0 - r.investmentAmount)) ∧
    r.postMoneyValuation =
        (match r.valuationType with
         | ValuationType.preMoney => r.investmentAmount
         | ValuationType.postMoney => 0) ∧
    r.capTable = []

/-- Position `i` is the only position of the list holding a funding round
with id `rid`. -/
def UniqueFundingIdAt (l : List Event) (i : ℕ) (rid : String) : Prop :=
  ∀ (j : ℕ) (s : FundingRound), l.get? j = some (Event.funding s) → s.id = rid → j = i

/-- Position `i` of the seeded array holds a reference round that every
resolution step must leave untouched: in any array with the same
input-side fields that still holds the round at position `i`, the lookup
of its `referenceRoundId` either fails or returns the round itself with a
non-positive selected valuation. -/
def StuckAt (seeded : List Event) (i : ℕ) (r₀ : FundingRound) : Prop :=
  ∀ m : List Event, m.map staticOf = seeded.map staticOf →
    m.get? i = some (Event.funding r₀) →
    (findFundingById m r₀.referenceRoundId = none ∨
     (findFundingById m r₀.referenceRoundId = some r₀ ∧ selectRefVal r₀ r₀ ≤ 0))

/-- Concrete single manual funding round of the spec's worked example:
USD, `investmentAmount = 2,000,000`, pre-money, `manualValuation =
8,000,000`. -/
def c5round : FundingRound :=
  { id := "r1", name := "Seed", currency := Currency.USD, investmentAmount := 2000000,
    valuationType := ValuationType.preMoney, valuationSource := ValuationSource.manual,
    manualValuation := 8000000, referenceRoundId := "", discountPercentage := 0,
    calculatedValuation := 0, preMoneyValuation := 0, postMoneyValuation := 0,
    newInvestorName := "Series A Investor", capTable := [], order := 1 }

/-- The annotated round the pipeline produces for `c5round`. -/
def c5out : FundingRound :=
  { c5round with
    calculatedValuation := 8000000
    preMoneyValuation := 8000000
    postMoneyValuation := 10000000
    capTable := [⟨"F", 800000, 80⟩, ⟨"Series A Investor", 200000, 20⟩] }

/-- A reference round whose `referenceRoundId` (`"nope"`) matches no event;
`valuationType = pre-money`, `investmentAmount = 5`. -/
def c1round : FundingRound :=
  { id := "b", name := "B", currency := Currency.USD, investmentAmount := 5,
    valuationType := ValuationType.preMoney, valuationSource := ValuationSource.reference,
    manualValuation := 0, referenceRoundId := "nope", discountPercentage := 0,
    calculatedValuation := 0, preMoneyValuation := 0, postMoneyValuation := 0,
    newInvestorName := "BI", capTable := [], order := 1 }

/-- The annotated round the pipeline produces for `c1round`: the
valuation stays at the unresolved sentinel `0`, `postMoneyValuation`
becomes the investment amount, and the cap table is the untouched
founder baseline. -/
def c1out : FundingRound :=
  { c1round with postMoneyValuation := 5, capTable := [⟨"F", 1000000, 100⟩] }

/-- A 50% option pool. -/
def c2pool : OptionPool := { id := "p", name := "P", percentage := 50, capTable := [], order := 1 }

/-- A previous cap table holding a single 0.02% shareholder. -/
def c2prev : List Shareholder := [⟨"X", 100, 1/50⟩]

/-- A funding round producing the same 50% dilution as `c2pool`
(`investmentAmount = 50`, `postMoneyValuation = 100`). -/
def c2half : FundingRound :=
  { c5round with investmentAmount := 50, postMoneyValuation := 100 }

/-- Manual post-money round with `manualValuation = investmentAmount =
100`: resolves to `preMoneyValuation = 0`, `postMoneyValuation = 100`. -/
def c3A : FundingRound :=
  { id := "a", name := "A", currency := Currency.USD, investmentAmount := 100,
    valuationType := ValuationType.postMoney, valuationSource := ValuationSource.manual,
    manualValuation := 100, referenceRoundId := "", discountPercentage := 0,
    calculatedValuation := 0, preMoneyValuation := 0, postMoneyValuation := 0,
    newInvestorName := "AI", capTable := [], order := 1 }

/-- A round referencing `c3A` with `valuationType = pre-money`, so its
selected reference valuation is `c3A`'s (zero) pre-money valuation. -/
def c3B : FundingRound :=
  { id := "b", name := "B", currency := Currency.USD, investmentAmount := 7,
    valuationType := ValuationType.preMoney, valuationSource := ValuationSource.reference,
    manualValuation := 0, referenceRoundId := "a", discountPercentage := 0,
    calculatedValuation := 0, preMoneyValuation := 0, postMoneyValuation := 0,
    newInvestorName := "BI", capTable := [], order := 2 }

/-- The seeded event array entering the resolution loop for `c3A`/`c3B`. -/
def c3list : List Event := [Event.funding (seedRound c3A), Event.funding (seedRound c3B)]

/-- A manual round with id `"a"` used as a deletion target. -/
def c7A : FundingRound := { c3A with id := "a" }

/-- A round referencing `c7A` by id. -/
def c7B : FundingRound := { c3B with id := "b", referenceRoundId := "a" }

/-- Event list containing a round and a round that references it. -/
def c7events : List Event := [Event.funding c7A, Event.funding c7B]

/-- A round whose investment (200) exceeds its post-money valuation (100),
so the computed new-investor percentage is 200%. -/
def c9round : FundingRound := { c2half with investmentAmount := 200 }


/-! ### Helper lemmas -/

theorem manual_ne_reference : ValuationSource.manual ≠ ValuationSource.reference := by
  intro h
  exact ValuationSource.noConfusion h

theorem setCapTable_capTable (e : Event) (t : List Shareholder) :
    (setCapTable e t).capTable = t := by
  cases e <;> rfl

theorem applyEventTable_ne_nil (e : Event) (ct : List Shareholder) (h : ct ≠ []) :
    applyEventTable e ct ≠ [] := by
  cases e with
  | funding r =>
    show calculateCapTableForFundingRound r ct ≠ []
    unfold calculateCapTableForFundingRound
    split
    · exact h
    · split
      · exact h
      · simp
  | pool p =>
    show calculateCapTableForOptionPool p ct ≠ []
    unfold calculateCapTableForOptionPool
    split
    · exact h
    · simp

theorem capTablePass_mem_ne_nil :
    ∀ (l : List Event) (ct : List Shareholder), ct ≠ [] →
      ∀ e ∈ capTablePass ct l, e.capTable ≠ [] := by
  intro l
  induction l with
  | nil => intro ct _ e he; simp [capTablePass] at he
  | cons x xs ih =>
    intro ct h e he
    simp only [capTablePass] at he
    rcases List.mem_cons.mp he with rfl | hmem
    · rw [setCapTable_capTable]
      exact applyEventTable_ne_nil x ct h
    · exact ih _ (applyEventTable_ne_nil x ct h) e hmem

theorem recalc_capTable_ne_nil (rates : ExchangeRates) (l : List Event) (founder : String) :
    ∀ e ∈ recalculateAllEvents rates l founder, e.capTable ≠ [] := by
  intro e he
  unfold recalculateAllEvents at he
  exact capTablePass_mem_ne_nil _ _ (by simp [getInitialCapTable]) e he

/-! ### Claim C5 -/

/-- Claim C5: for founder `"F"` and a single USD funding round with
`investmentAmount = 2,000,000`, pre-money, manual valuation `8,000,000`,
`recalculate` produces `preMoney = 8,000,000`, `postMoney = 10,000,000`,
and the cap table `[{F, 800,000, 80%}, {Series A Investor, 200,000, 20%}]`. -/
theorem c5_single_round_manual :
    recalculateAllEvents defaultRates [Event.funding c5round] "F" = [Event.funding c5out] := by
  norm_num [recalculateAllEvents, sortByOrder, insertByOrder, seedEvent, seedRound,
    applyValuation, resolveLoop, resolvePass, resolvePassAux, resolveStep, capTablePass,
    applyEventTable, calculateCapTableForFundingRound, setCapTable, getInitialCapTable,
    jsRound, c5round, c5out, defaultRates, Shareholder.mk.injEq, FundingRound.mk.injEq,
    List.filterMap_cons, List.filterMap_nil]

/-! ### Claim C8 -/

/-- Claim C8: the derived six-entry exchange-rate table equals, field for
field, the table described by the specification: inverses and cross-rates
guarded by positivity of the corresponding primary, the four derived
rates rounded to 4 decimal places, the two primaries kept at full
precision. -/
theorem c8_derive_exchange_rates (u e : ℚ) :
    deriveAllExchangeRates u e = deriveAllExchangeRatesSpec u e := by
  simp only [deriveAllExchangeRates, deriveAllExchangeRatesSpec]
  split_ifs <;> first | rfl | linarith

/-! ### Claim C10 -/

/-- Claim C10: for distinct currencies whose directed rate entry is `0`,
`convertCurrency` multiplies by `1`, i.e. returns the amount unchanged —
a zero rate behaves exactly like a missing rate. -/
theorem c10_zero_rate_like_missing (rates : ExchangeRates) (amount : ℚ) (src dst : Currency)
    (hne : src ≠ dst) (hzero : lookupRate rates src dst = 0) :
    convertCurrency rates amount src dst = amount := by
  unfold convertCurrency
  rw [if_neg hne, hzero, if_pos rfl, mul_one]

/-- Witness for C10: with both primaries `0`, the derived `GBP→USD` rate
is `0` and conversion of `5` from GBP to USD returns `5`. -/
theorem c10_witness :
    convertCurrency (deriveAllExchangeRates 0 0) 5 Currency.GBP Currency.USD = 5 :=
  c10_zero_rate_like_missing (deriveAllExchangeRates 0 0) 5 Currency.GBP Currency.USD
    (by decide) (by norm_num [lookupRate, deriveAllExchangeRates, round4, jsRound])

/-! ### Claim C9 -/

/-- Claim C9: whenever the computed new-investor percentage
(`investmentAmount / postMoneyValuation × 100`) is `≤ 0` or `≥ 100`, and
whenever an option pool's percentage is `≤ 0` or `≥ 100`, the event's
resulting cap table is exactly the previous cap table (both functions are
total, so no exception can arise). -/
theorem c9_degenerate_percentage_noop :
    (∀ (round : FundingRound) (prev : List Shareholder),
        (round.investmentAmount / round.postMoneyValuation * 100 ≤ 0 ∨
         100 ≤ round.investmentAmount / round.postMoneyValuation * 100) →
        calculateCapTableForFundingRound round prev = prev) ∧
    (∀ (pool : OptionPool) (prev : List Shareholder),
        (pool.percentage ≤ 0 ∨ 100 ≤ pool.percentage) →
        calculateCapTableForOptionPool pool prev = prev) := by
  constructor
  · intro round prev h
    unfold calculateCapTableForFundingRound
    rcases le_or_lt round.postMoneyValuation 0 with hp | hp
    · rw [if_pos (Or.inl hp)]
    · rcases le_or_lt round.investmentAmount 0 with hi | hi
      · rw [if_pos (Or.inr hi)]
      · rw [if_neg (by push_neg; exact ⟨hp, hi⟩), if_pos h]
  · intro pool prev h
    unfold calculateCapTableForOptionPool
    rw [if_pos h]

/-- Witness for C9: a 200% investor round and a 0% pool both pass the
previous table through unchanged. -/
theorem c9_witness :
    calculateCapTableForFundingRound c9round [⟨"X", 100, 1/50⟩] = [⟨"X", 100, 1/50⟩] ∧
    calculateCapTableForOptionPool { c2pool with percentage := 0 } [⟨"X", 100, 1/50⟩]
      = [⟨"X", 100, 1/50⟩] :=
  ⟨c9_degenerate_percentage_noop.1 c9round [⟨"X", 100, 1/50⟩]
      (by norm_num [c9round, c2half, c5round]),
   c9_degenerate_percentage_noop.2 { c2pool with percentage := 0 } [⟨"X", 100, 1/50⟩]
      (by norm_num)⟩

/-! ### Claim C2 -/

/-- Claim C2 (amended): for a pool percentage strictly between 0 and 100
the option-pool dilution uses the same dilution factor and rounding as a
funding round but applies no materiality floor: the resulting table has
exactly one more entry than before, every previous shareholder reappears
with diluted shares and percentage no matter how small, and the pool
entry is appended. -/
theorem c2_option_pool_no_floor (pool : OptionPool) (prev : List Shareholder)
    (h0 : 0 < pool.percentage) (h100 : pool.percentage < 100) :
    (calculateCapTableForOptionPool pool prev).length = prev.length + 1 ∧
    (∀ s ∈ prev,
      (⟨s.name, jsRound (s.shares * ((100 - pool.percentage) / 100)),
        s.percentage * ((100 - pool.percentage) / 100)⟩ : Shareholder)
        ∈ calculateCapTableForOptionPool pool prev) ∧
    (⟨pool.name, jsRound (pool.percentage / 100 * 1000000), pool.percentage⟩ : Shareholder)
        ∈ calculateCapTableForOptionPool pool prev := by
  have hguard : ¬(pool.percentage ≤ 0 ∨ 100 ≤ pool.percentage) := by
    push_neg
    exact ⟨h0, h100⟩
  unfold calculateCapTableForOptionPool
  rw [if_neg hguard]
  refine ⟨by simp, ?_, ?_⟩
  · intro s hs
    exact List.mem_append_left _ (List.mem_map_of_mem _ hs)
  · exact List.mem_append_right _ (List.mem_singleton_self _)

/-- Counterexample for C2 as stated: a 50% pool over a table holding a
0.02% shareholder keeps that shareholder at the diluted 0.01% (which is
`≤ 0.01`), whereas the funding-round math with the same 50% dilution
drops them. -/
theorem c2_counterexample :
    0 < c2pool.percentage ∧ c2pool.percentage < 100 ∧
    calculateCapTableForOptionPool c2pool c2prev
      = [⟨"X", 50, 1/100⟩, ⟨"P", 500000, 50⟩] ∧
    ((1 : ℚ)/100 ≤ 0.01) ∧
    calculateCapTableForFundingRound c2half c2prev
      = [⟨"Series A Investor", 500000, 50⟩] := by
  refine ⟨by norm_num [c2pool], by norm_num [c2pool], ?_, by norm_num, ?_⟩
  · norm_num [calculateCapTableForOptionPool, c2pool, c2prev, jsRound]
  · norm_num [calculateCapTableForFundingRound, c2half, c2prev, c5round, jsRound,
      List.filterMap_cons, List.filterMap_nil]

/-- Witness for C2's amended theorem at the 50% pool and 0.02% holder. -/
theorem c2_witness :
    (⟨"X", jsRound ((100 : ℚ) * ((100 - c2pool.percentage) / 100)),
      (1/50 : ℚ) * ((100 - c2pool.percentage) / 100)⟩ : Shareholder)
      ∈ calculateCapTableForOptionPool c2pool c2prev :=
  (c2_option_pool_no_floor c2pool c2prev (by norm_num [c2pool]) (by norm_num [c2pool])).2.1
    ⟨"X", 100, 1/50⟩ (by simp [c2prev])

/-! ### Claim C3 -/

/-- Claim C3 (amended): when a still-unresolved reference round's target
exists and is resolved but the selected reference valuation (taken
before currency conversion) is `≤ 0`, the resolution step leaves the
round unchanged — still at `calculatedValuation = 0`, hence eligible in
any later pass — but reports `false` for the unresolved flag, so this
round alone does not cause another pass to run. -/
theorem c3_zero_reference_valuation (rates : ExchangeRates) (current : List Event)
    (r t : FundingRound)
    (hsrc : r.valuationSource = ValuationSource.reference)
    (hcv : r.calculatedValuation = 0)
    (hfind : findFundingById current r.referenceRoundId = some t)
    (hres : 0 < t.preMoneyValuation ∨ 0 < t.postMoneyValuation)
    (hsel : selectRefVal r t ≤ 0) :
    resolveStep rates current (Event.funding r) = (Event.funding r, false) := by
  simp only [resolveStep, hfind]
  rw [if_pos (And.intro hsrc hcv), if_pos hres, if_neg (not_lt.mpr hsel)]

/-- Witness for C3's amended theorem on the concrete pair `c3A`/`c3B`. -/
theorem c3_witness :
    resolveStep defaultRates c3list (Event.funding (seedRound c3B))
      = (Event.funding (seedRound c3B), false) :=
  c3_zero_reference_valuation defaultRates c3list (seedRound c3B) (seedRound c3A)
    (by norm_num [seedRound, applyValuation, c3B])
    (by norm_num [seedRound, applyValuation, c3B])
    (by norm_num [c3list, findFundingById, seedRound, applyValuation, c3A, c3B])
    (by norm_num [seedRound, applyValuation, c3A])
    (by norm_num [selectRefVal, seedRound, applyValuation, c3A, c3B])

/-- Counterexample for C3 as stated: round `B` references resolved round
`A` and selects its zero pre-money valuation, yet the pass reports no
unresolved reference (`false`), so the propagation loop stops — there is
no next pass in which `B` would be retried. -/
theorem c3_counterexample :
    findFundingById c3list (seedRound c3B).referenceRoundId = some (seedRound c3A) ∧
    0 < (seedRound c3A).postMoneyValuation ∧
    selectRefVal (seedRound c3B) (seedRound c3A) ≤ 0 ∧
    (seedRound c3B).valuationSource = ValuationSource.reference ∧
    (seedRound c3B).calculatedValuation = 0 ∧
    resolvePass defaultRates c3list = (c3list, false) ∧
    resolveLoop defaultRates 10 c3list = c3list := by
  refine ⟨?_, ?_, ?_, ?_, ?_, ?_, ?_⟩ <;>
    norm_num [c3list, findFundingById, seedRound, applyValuation, c3A, c3B, selectRefVal,
      resolveLoop, resolvePass, resolvePassAux, resolveStep, convertCurrency, defaultRates]

/-! ### Claim C6 -/

/-- Claim C6 (amended): `insertFundingRound` with an `afterOrder`,
`insertOptionPool` (with or without one), `updateField` and `removeEvent`
all return the output of a full `recalculate` run on the mutated list;
`insertFundingRound` without an `afterOrder`, however, returns the
previous list with the fresh default round (empty cap table) appended,
and that result is not the output of any `recalculate` run. -/
theorem c6_mutation_entry_points (rates : ExchangeRates) (events : List Event)
    (founderName freshId roundName investorName poolName eventId : String)
    (k : ℤ) (upd : Event → Event) (l : List Event) :
    addRoundModel rates events founderName freshId roundName investorName (some k) =
      recalculateAllEvents rates
        ((events.map fun e => if k < e.order then setOrder e (e.order + 1) else e)
          ++ [Event.funding (newFundingRound freshId roundName investorName (k + 1))])
        founderName ∧
    addOptionPoolModel rates events founderName freshId poolName (some k) =
      recalculateAllEvents rates
        ((events.map fun e => if k < e.order then setOrder e (e.order + 1) else e)
          ++ [Event.pool (newOptionPool freshId poolName (k + 1))]) founderName ∧
    addOptionPoolModel rates events founderName freshId poolName none =
      recalculateAllEvents rates
        (events ++ [Event.pool (newOptionPool freshId poolName (getNextOrder events))])
        founderName ∧
    updateEventModel rates events founderName eventId upd =
      recalculateAllEvents rates
        (events.map fun e => if e.id = eventId then upd e else e) founderName ∧
    removeEventModel rates events founderName eventId =
      recalculateAllEvents rates (removeEventPrep events eventId) founderName ∧
    addRoundModel rates events founderName freshId roundName investorName none =
      events ++ [Event.funding (newFundingRound freshId roundName investorName
        (getNextOrder events))] ∧
    addRoundModel rates events founderName freshId roundName investorName none ≠
      recalculateAllEvents rates l founderName := by
  refine ⟨rfl, rfl, rfl, rfl, rfl, rfl, ?_⟩
  intro heq
  have hm : Event.funding (newFundingRound freshId roundName investorName
      (getNextOrder events)) ∈ recalculateAllEvents rates l founderName := by
    rw [← heq]
    exact List.mem_append_right _ (List.mem_singleton_self _)
  exact recalc_capTable_ne_nil rates l founderName _ hm rfl

/-- Counterexample for C6 as stated: inserting a funding round into the
empty model without an `afterOrder` returns a list that is not the
output of recalculating that same list (the appended round still has an
empty cap table). -/
theorem c6_counterexample :
    addRoundModel defaultRates [] "F" "r1" "Series A" "Series A Investor" none ≠
      recalculateAllEvents defaultRates
        (addRoundModel defaultRates [] "F" "r1" "Series A" "Series A Investor" none) "F" := by
  norm_num [addRoundModel, getNextOrder, newFundingRound, recalculateAllEvents, sortByOrder,
    insertByOrder, seedEvent, seedRound, applyValuation, resolveLoop, resolvePass,
    resolvePassAux, resolveStep, capTablePass, applyEventTable,
    calculateCapTableForFundingRound, setCapTable, getInitialCapTable, manual_ne_reference,
    FundingRound.mk.injEq, Event.funding.injEq]

/-! ### Claim C7 -/

/-- Claim C7: removing an event deletes every event with that id; every
remaining funding round that referenced the deleted id survives with
`referenceRoundId` cleared to `""` and `valuationSource` forced to
manual; every other event survives unchanged; and the model re-runs the
full pipeline on the cleaned list. -/
theorem c7_remove_event (rates : ExchangeRates) (events : List Event)
    (founderName eventId : String) :
    (∀ e ∈ removeEventPrep events eventId, e.id ≠ eventId) ∧
    (∀ r : FundingRound, Event.funding r ∈ events → r.id ≠ eventId →
      r.referenceRoundId = eventId →
      Event.funding { r with referenceRoundId := "", valuationSource := ValuationSource.manual }
        ∈ removeEventPrep events eventId) ∧
    (∀ e ∈ events, e.id ≠ eventId →
      (∀ r : FundingRound, e = Event.funding r → r.referenceRoundId ≠ eventId) →
      e ∈ removeEventPrep events eventId) ∧
    removeEventModel rates events founderName eventId =
      recalculateAllEvents rates (removeEventPrep events eventId) founderName := by
  refine ⟨?_, ?_, ?_, rfl⟩
  · intro e he
    unfold removeEventPrep at he
    rcases List.mem_map.mp he with ⟨a, ha, rfl⟩
    have hid : a.id ≠ eventId := by
      have h2 := (List.mem_filter.mp ha).2
      simpa using h2
    cases a with
    | funding r =>
      by_cases href : r.referenceRoundId = eventId <;>
        simpa [href, Event.id] using hid
    | pool p => simpa [Event.id] using hid
  · intro r hmem hid href
    unfold removeEventPrep
    refine List.mem_map.mpr ⟨Event.funding r, ?_, ?_⟩
    · exact List.mem_filter.mpr ⟨hmem, by simpa [Event.id] using hid⟩
    · simp [href]
  · intro e hmem hid hnref
    unfold removeEventPrep
    refine List.mem_map.mpr ⟨e, ?_, ?_⟩
    · exact List.mem_filter.mpr ⟨hmem, by simpa using hid⟩
    · cases e with
      | funding r => simp [hnref r rfl]
      | pool p => rfl

/-- Witness for C7: deleting round `"a"` from `c7events` keeps round
`c7B` with its reference cleared and its source forced to manual. -/
theorem c7_witness :
    Event.funding { c7B with referenceRoundId := "", valuationSource := ValuationSource.manual }
      ∈ removeEventPrep c7events "a" :=
  (c7_remove_event defaultRates c7events "F" "a").2.1 c7B (by simp [c7events])
    (by decide) (by decide)


/-! Sort lemmas -/

theorem mem_insertByOrder {z x : Event} : ∀ {l : List Event},
    z ∈ insertByOrder x l ↔ z = x ∨ z ∈ l := by
  intro l
  induction l with
  | nil => simp [insertByOrder]
  | cons y ys ih =>
    simp only [insertByOrder]
    split
    · simp only [List.mem_cons, ih]
      tauto
    · simp [List.mem_cons]

theorem pairwise_insertByOrder {x : Event} : ∀ {l : List Event},
    l.Pairwise (fun a b => a.order ≤ b.order) →
    (insertByOrder x l).Pairwise (fun a b => a.order ≤ b.order) := by
  intro l
  induction l with
  | nil => intro _; simp [insertByOrder]
  | cons y ys ih =>
    intro hp
    rw [List.pairwise_cons] at hp
    obtain ⟨hy, hys⟩ := hp
    simp only [insertByOrder]
    split
    next hle =>
      rw [List.pairwise_cons]
      refine ⟨?_, ih hys⟩
      intro z hz
      rcases mem_insertByOrder.mp hz with rfl | hz'
      · exact hle
      · exact hy z hz'
    next hnle =>
      rw [List.pairwise_cons]
      refine ⟨?_, List.Pairwise.cons hy hys⟩
      intro z hz
      rcases List.mem_cons.mp hz with rfl | hz'
      · exact le_of_not_le hnle
      · exact le_trans (le_of_not_le hnle) (hy z hz')

theorem sortByOrder_pairwise (l : List Event) :
    (sortByOrder l).Pairwise (fun a b => a.order ≤ b.order) := by
  suffices h : ∀ (l acc : List Event), acc.Pairwise (fun a b => a.order ≤ b.order) →
      (l.foldl (fun a x => insertByOrder x a) acc).Pairwise (fun a b => a.order ≤ b.order) by
    exact h l [] (by simp)
  intro l
  induction l with
  | nil => intro acc h; simpa using h
  | cons e rest ih => intro acc h; exact ih _ (pairwise_insertByOrder h)

theorem insertByOrder_all_le {x : Event} : ∀ {l : List Event},
    (∀ a ∈ l, a.order ≤ x.order) → insertByOrder x l = l ++ [x] := by
  intro l
  induction l with
  | nil => intro _; rfl
  | cons y ys ih =>
    intro h
    simp only [insertByOrder]
    rw [if_pos (h y (List.mem_cons_self y ys)), ih (fun a ha => h a (List.mem_cons_of_mem y ha))]
    rfl

theorem foldl_insert_sorted : ∀ (l acc : List Event),
    (acc ++ l).Pairwise (fun a b => a.order ≤ b.order) →
    l.foldl (fun a x => insertByOrder x a) acc = acc ++ l
  | [], acc, _ => by simp
  | e :: rest, acc, h => by
    have hall : ∀ a ∈ acc, a.order ≤ e.order := by
      rw [List.pairwise_append] at h
      intro a ha
      exact h.2.2 a ha e (List.mem_cons_self e rest)
    simp only [List.foldl_cons]
    rw [insertByOrder_all_le hall,
      foldl_insert_sorted rest (acc ++ [e]) (by simpa using h)]
    simp

theorem sortByOrder_eq_of_pairwise {l : List Event}
    (h : l.Pairwise (fun a b => a.order ≤ b.order)) : sortByOrder l = l := by
  have h2 := foldl_insert_sorted l [] (by simpa using h)
  simpa [sortByOrder] using h2

/-! Statics preservation -/

theorem staticOf_applyValuation (r : FundingRound) (cv : ℚ) :
    staticOfRound (applyValuation r cv) = staticOfRound r := by
  cases r with
  | mk i n c inv vt vs mv rid d cv0 pre post nin ct o => cases vt <;> rfl

theorem staticOf_seedEvent (e : Event) : staticOf (seedEvent e) = staticOf e := by
  cases e with
  | pool p => rfl
  | funding r =>
    show EventStatic.funding (staticOfRound (seedRound r)) = EventStatic.funding (staticOfRound r)
    rw [seedRound, staticOf_applyValuation]

theorem map_staticOf_map_seed (l : List Event) :
    (l.map seedEvent).map staticOf = l.map staticOf := by
  induction l with
  | nil => rfl
  | cons e rest ih => simp [staticOf_seedEvent, ih]

theorem staticOf_resolveStep (rates : ExchangeRates) (m : List Event) (e : Event) :
    staticOf (resolveStep rates m e).1 = staticOf e := by
  cases e with
  | pool p => rfl
  | funding r =>
    simp only [resolveStep]
    repeat' split
    all_goals simp [staticOf, staticOf_applyValuation]

theorem resolvePassAux_statics (rates : ExchangeRates) : ∀ (rest acc : List Event) (flag : Bool),
    (resolvePassAux rates acc rest flag).1.map staticOf = acc.map staticOf ++ rest.map staticOf
  | [], acc, flag => by simp [resolvePassAux]
  | e :: rest, acc, flag => by
    simp only [resolvePassAux]
    rw [resolvePassAux_statics rates rest (acc ++ [(resolveStep rates (acc ++ e :: rest) e).1]) _]
    simp [staticOf_resolveStep]

theorem resolveLoop_statics (rates : ExchangeRates) : ∀ (n : ℕ) (l : List Event),
    (resolveLoop rates n l).map staticOf = l.map staticOf
  | 0, l => rfl
  | n+1, l => by
    have hp : (resolvePass rates l).1.map staticOf = l.map staticOf := by
      simpa [resolvePass] using resolvePassAux_statics rates l [] false
    simp only [resolveLoop]
    split
    · rw [resolveLoop_statics rates n _, hp]
    · exact hp

theorem staticOf_setCapTable (e : Event) (t : List Shareholder) :
    staticOf (setCapTable e t) = staticOf e := by
  cases e <;> rfl

theorem capTablePass_statics : ∀ (l : List Event) (ct : List Shareholder),
    (capTablePass ct l).map staticOf = l.map staticOf
  | [], _ => rfl
  | e :: rest, ct => by
    simp only [capTablePass, List.map_cons, staticOf_setCapTable,
      capTablePass_statics rest _]

theorem recalc_statics (rates : ExchangeRates) (events : List Event) (founder : String) :
    (recalculateAllEvents rates events founder).map staticOf
      = (sortByOrder events).map staticOf := by
  unfold recalculateAllEvents
  rw [capTablePass_statics, resolveLoop_statics, map_staticOf_map_seed]

theorem staticOf_order (e : Event) : (staticOf e).order = e.order := by cases e <;> rfl

theorem map_staticOf_order (l : List Event) :
    (l.map staticOf).map EventStatic.order = l.map Event.order := by
  induction l with
  | nil => rfl
  | cons e rest ih => simp [ih, staticOf_order]

theorem map_order_of_map_staticOf {l m : List Event} (h : l.map staticOf = m.map staticOf) :
    l.map Event.order = m.map Event.order := by
  rw [← map_staticOf_order l, ← map_staticOf_order m, h]


/-! Simulation lemmas -/

theorem evSim_refl (e : Event) : EvSim e e := by
  cases e with
  | funding r => exact rfl
  | pool p => exact ⟨rfl, rfl, rfl, rfl⟩

theorem evSimList_cons {x y : Event} {xs ys : List Event}
    (h1 : EvSim x y) (h2 : EvSimList xs ys) : EvSimList (x :: xs) (y :: ys) :=
  And.intro h1 h2

theorem evSimList_append : ∀ {a b c d : List Event},
    EvSimList a b → EvSimList c d → EvSimList (a ++ c) (b ++ d)
  | [], [], _, _, _, h2 => h2
  | [], _ :: _, _, _, h1, _ => False.elim h1
  | _ :: _, [], _, _, h1, _ => False.elim h1
  | x :: xs, y :: ys, c, d, h1, h2 => by
    obtain ⟨hh, ht⟩ := h1
    exact ⟨hh, evSimList_append ht h2⟩

theorem seedRound_congr {r r' : FundingRound} (h : staticOfRound r = staticOfRound r') :
    seedRound r = seedRound r' := by
  cases r with
  | mk i n c inv vt vs mv rid d cv pre post nin ct o =>
    cases r' with
    | mk i' n' c' inv' vt' vs' mv' rid' d' cv' pre' post' nin' ct' o' =>
      simp only [staticOfRound, FundingStatic.mk.injEq] at h
      obtain ⟨h1, h2, h3, h4, h5, h6, h7, h8, h9, h10, h11⟩ := h
      subst h1; subst h2; subst h3; subst h4; subst h5; subst h6
      subst h7; subst h8; subst h9; subst h10; subst h11
      cases vs <;> cases vt <;> rfl

theorem seedEvent_evSim {a b : Event} (h : staticOf a = staticOf b) :
    EvSim (seedEvent a) (seedEvent b) := by
  cases a with
  | funding r =>
    cases b with
    | funding r' =>
      have h' : staticOfRound r = staticOfRound r' := by
        simpa [staticOf, EventStatic.funding.injEq] using h
      show seedRound r = seedRound r'
      exact seedRound_congr h'
    | pool p => exact EventStatic.noConfusion h
  | pool p =>
    cases b with
    | funding r => exact EventStatic.noConfusion h
    | pool p' =>
      simp only [staticOf, EventStatic.pool.injEq, PoolStatic.mk.injEq] at h
      show p.id = p'.id ∧ p.name = p'.name ∧ p.percentage = p'.percentage ∧ p.order = p'.order
      exact ⟨h.1, h.2.1, h.2.2.1, h.2.2.2⟩

theorem evSimList_seed_of_statics : ∀ {l m : List Event},
    l.map staticOf = m.map staticOf →
    EvSimList (l.map seedEvent) (m.map seedEvent)
  | [], [], _ => trivial
  | [], _ :: _, h => by simp at h
  | _ :: _, [], h => by simp at h
  | x :: xs, y :: ys, h => by
    simp only [List.map_cons, List.cons.injEq] at h
    exact ⟨seedEvent_evSim h.1, evSimList_seed_of_statics h.2⟩

theorem findFundingById_congr : ∀ {l m : List Event}, EvSimList l m → ∀ rid : String,
    findFundingById l rid = findFundingById m rid
  | [], [], _, _ => rfl
  | [], _ :: _, h, _ => False.elim h
  | _ :: _, [], h, _ => False.elim h
  | x :: xs, y :: ys, h, rid => by
    obtain ⟨h1, h2⟩ := h
    cases x with
    | funding r =>
      cases y with
      | funding r' =>
        have hr : r = r' := h1
        subst hr
        simp only [findFundingById]
        split
        · rfl
        · exact findFundingById_congr h2 rid
      | pool p => exact False.elim h1
    | pool p =>
      cases y with
      | funding r => exact False.elim h1
      | pool p' =>
        simp only [findFundingById]
        exact findFundingById_congr h2 rid

theorem resolveStep_congr (rates : ExchangeRates) {cur cur' : List Event} {e e' : Event}
    (hsim : EvSimList cur cur') (he : EvSim e e') :
    EvSim (resolveStep rates cur e).1 (resolveStep rates cur' e').1 ∧
    (resolveStep rates cur e).2 = (resolveStep rates cur' e').2 := by
  cases e with
  | funding r =>
    cases e' with
    | funding r' =>
      have hr : r = r' := he
      subst hr
      have hf : resolveStep rates cur (Event.funding r)
          = resolveStep rates cur' (Event.funding r) := by
        simp only [resolveStep]
        rw [findFundingById_congr hsim]
      rw [hf]
      exact ⟨evSim_refl _, rfl⟩
    | pool p => exact False.elim he
  | pool p =>
    cases e' with
    | funding r => exact False.elim he
    | pool p' => exact ⟨he, rfl⟩

theorem resolvePassAux_congr (rates : ExchangeRates) :
    ∀ (rest rest' acc acc' : List Event) (flag : Bool),
    EvSimList acc acc' → EvSimList rest rest' →
    EvSimList (resolvePassAux rates acc rest flag).1 (resolvePassAux rates acc' rest' flag).1 ∧
    (resolvePassAux rates acc rest flag).2 = (resolvePassAux rates acc' rest' flag).2
  | [], [], acc, acc', flag, ha, _ => ⟨ha, rfl⟩
  | [], _ :: _, _, _, _, _, h => False.elim h
  | _ :: _, [], _, _, _, _, h => False.elim h
  | e :: rest, e' :: rest', acc, acc', flag, ha, h => by
    obtain ⟨h1, h2⟩ := h
    have hstep := resolveStep_congr rates
      (evSimList_append ha (evSimList_cons h1 h2)) h1
    simp only [resolvePassAux]
    rw [← hstep.2]
    exact resolvePassAux_congr rates rest rest' _ _ _
      (evSimList_append ha (evSimList_cons hstep.1 True.intro)) h2

theorem resolvePass_congr (rates : ExchangeRates) {l m : List Event} (h : EvSimList l m) :
    EvSimList (resolvePass rates l).1 (resolvePass rates m).1 ∧
    (resolvePass rates l).2 = (resolvePass rates m).2 :=
  resolvePassAux_congr rates l m [] [] false trivial h

theorem resolveLoop_congr (rates : ExchangeRates) : ∀ (n : ℕ) {l m : List Event},
    EvSimList l m → EvSimList (resolveLoop rates n l) (resolveLoop rates n m)
  | 0, _, _, h => h
  | n+1, l, m, h => by
    have hp := resolvePass_congr rates h
    simp only [resolveLoop]
    rw [← hp.2]
    split
    · exact resolveLoop_congr rates n hp.1
    · exact hp.1

theorem capTablePass_congr : ∀ (l m : List Event) (ct : List Shareholder),
    EvSimList l m → capTablePass ct l = capTablePass ct m
  | [], [], _, _ => rfl
  | [], _ :: _, _, h => False.elim h
  | _ :: _, [], _, h => False.elim h
  | e :: l, e' :: m, ct, h => by
    obtain ⟨h1, h2⟩ := h
    cases e with
    | funding r =>
      cases e' with
      | funding r' =>
        have hr : r = r' := h1
        subst hr
        simp only [capTablePass]
        rw [capTablePass_congr l m _ h2]
      | pool p => exact False.elim h1
    | pool p =>
      cases e' with
      | funding r => exact False.elim h1
      | pool p' =>
        obtain ⟨e1, e2, e3, e4⟩ := h1
        cases p with
        | mk i n pct ct0 o =>
          cases p' with
          | mk i' n' pct' ct0' o' =>
            simp only at e1 e2 e3 e4
            subst e1; subst e2; subst e3; subst e4
            simp only [capTablePass, applyEventTable, setCapTable]
            have ht : calculateCapTableForOptionPool ⟨i, n, pct, ct0, o⟩ ct
                = calculateCapTableForOptionPool ⟨i, n, pct, ct0', o⟩ ct := by
              simp [calculateCapTableForOptionPool]
            rw [ht, capTablePass_congr l m _ h2]

/-! ### Claim C4 -/

/-- Claim C4: `recalculate` is idempotent — applying it to its own output
(with the same founder name and exchange rates) returns that output
unchanged. -/
theorem c4_recalculate_idempotent (rates : ExchangeRates) (events : List Event)
    (founder : String) :
    recalculateAllEvents rates (recalculateAllEvents rates events founder) founder =
      recalculateAllEvents rates events founder := by
  have hstat : (recalculateAllEvents rates events founder).map staticOf
      = (sortByOrder events).map staticOf := recalc_statics rates events founder
  have hord : (recalculateAllEvents rates events founder).map Event.order
      = (sortByOrder events).map Event.order := map_order_of_map_staticOf hstat
  have hpw : (recalculateAllEvents rates events founder).Pairwise
      (fun a b => a.order ≤ b.order) := by
    have hmap : ((recalculateAllEvents rates events founder).map Event.order).Pairwise
        (fun a b => a ≤ b) := by
      rw [hord]
      exact List.pairwise_map.mpr (sortByOrder_pairwise events)
    exact List.pairwise_map.mp hmap
  have hsorted : sortByOrder (recalculateAllEvents rates events founder)
      = recalculateAllEvents rates events founder := sortByOrder_eq_of_pairwise hpw
  have hsim : EvSimList ((recalculateAllEvents rates events founder).map seedEvent)
      ((sortByOrder events).map seedEvent) := evSimList_seed_of_statics hstat
  have hloop := resolveLoop_congr rates 10 hsim
  have hpass := capTablePass_congr _ _ (getInitialCapTable founder) hloop
  show capTablePass (getInitialCapTable founder)
      (resolveLoop rates 10 ((sortByOrder (recalculateAllEvents rates events founder)).map
        seedEvent)) = recalculateAllEvents rates events founder
  rw [hsorted, hpass]
  rfl


/-! C1 helpers: permutation and membership of the sort -/

theorem insertByOrder_perm (x : Event) : ∀ (l : List Event), List.Perm (insertByOrder x l) (x :: l)
  | [] => List.Perm.refl _
  | y :: ys => by
    simp only [insertByOrder]
    split
    · exact ((insertByOrder_perm x ys).cons y).trans (List.Perm.swap x y ys)
    · exact List.Perm.refl _

theorem foldl_insert_perm : ∀ (l acc : List Event),
    List.Perm (l.foldl (fun a x => insertByOrder x a) acc) (acc ++ l)
  | [], acc => by simp
  | x :: xs, acc => by
    simp only [List.foldl_cons]
    refine (foldl_insert_perm xs _).trans ?_
    refine (((insertByOrder_perm x acc).append_right xs).trans ?_)
    exact List.perm_middle.symm

theorem sortByOrder_perm (l : List Event) : List.Perm (sortByOrder l) l := by
  simpa [sortByOrder] using foldl_insert_perm l []

theorem mem_sortByOrder {z : Event} {l : List Event} : z ∈ sortByOrder l ↔ z ∈ l :=
  (sortByOrder_perm l).mem_iff

/-! C1 helpers: id-based lookups -/

theorem seedEvent_id (e : Event) : (seedEvent e).id = e.id := by
  cases e with
  | pool p => rfl
  | funding r =>
    cases r with
    | mk i n c inv vt vs mv rid d cv pre post nin ct o => cases vt <;> cases vs <;> rfl

theorem eventIsFundingWithId_static {x y : Event} (h : staticOf x = staticOf y)
    (rid : String) : eventIsFundingWithId x rid ↔ eventIsFundingWithId y rid := by
  cases x with
  | funding r =>
    cases y with
    | funding r' =>
      have : staticOfRound r = staticOfRound r' := by
        simpa [staticOf, EventStatic.funding.injEq] using h
      have hid : r.id = r'.id := by
        have h2 := congrArg FundingStatic.id this
        simpa [staticOfRound] using h2
      show r.id = rid ↔ r'.id = rid
      rw [hid]
    | pool p => exact EventStatic.noConfusion h
  | pool p =>
    cases y with
    | funding r => exact EventStatic.noConfusion h
    | pool p' => exact Iff.rfl

theorem no_funding_id_of_staticMapEq : ∀ {l m : List Event},
    l.map staticOf = m.map staticOf → ∀ {rid : String},
    (∀ e ∈ l, ¬ eventIsFundingWithId e rid) → ∀ e ∈ m, ¬ eventIsFundingWithId e rid
  | [], [], _, _, _, _, he => absurd he (List.not_mem_nil _)
  | [], _ :: _, h, _, _, _, _ => by simp at h
  | _ :: _, [], h, _, _, _, _ => by simp at h
  | x :: xs, y :: ys, h, rid, hl, e, he => by
    simp only [List.map_cons, List.cons.injEq] at h
    rcases List.mem_cons.mp he with rfl | he'
    · rw [← eventIsFundingWithId_static h.1 rid]
      exact hl x (List.mem_cons_self _ _)
    · exact no_funding_id_of_staticMapEq h.2
        (fun a ha => hl a (List.mem_cons_of_mem _ ha)) e he'

theorem find_none_of_no_id : ∀ {l : List Event} {rid : String},
    (∀ e ∈ l, ¬ eventIsFundingWithId e rid) → findFundingById l rid = none
  | [], _, _ => rfl
  | Event.funding r :: rest, rid, h => by
    simp only [findFundingById]
    rw [if_neg (show ¬(r.id = rid) from h (Event.funding r) (List.mem_cons_self _ _))]
    exact find_none_of_no_id (fun e he => h e (List.mem_cons_of_mem _ he))
  | Event.pool p :: rest, rid, h => by
    simp only [findFundingById]
    exact find_none_of_no_id (fun e he => h e (List.mem_cons_of_mem _ he))

theorem staticMapEq_get_funding {l m : List Event} (h : l.map staticOf = m.map staticOf)
    {j : ℕ} {s : FundingRound} (hj : l.get? j = some (Event.funding s)) :
    ∃ s' : FundingRound, m.get? j = some (Event.funding s')
      ∧ staticOfRound s' = staticOfRound s := by
  have h1 : (l.map staticOf).get? j = some (EventStatic.funding (staticOfRound s)) := by
    rw [List.get?_map, hj]
    rfl
  rw [h, List.get?_map] at h1
  cases hm : m.get? j with
  | none => rw [hm] at h1; exact absurd h1 (by simp)
  | some e' =>
    rw [hm] at h1
    have h2 : staticOf e' = EventStatic.funding (staticOfRound s) := by
      simpa using h1
    cases e' with
    | funding s' =>
      refine ⟨s', rfl, ?_⟩
      simpa [staticOf, EventStatic.funding.injEq] using h2
    | pool p => exact absurd h2 (by simp [staticOf])

theorem findFundingById_of_unique : ∀ {l : List Event} {i : ℕ} {r : FundingRound},
    l.get? i = some (Event.funding r) →
    (∀ (j : ℕ) (s : FundingRound), l.get? j = some (Event.funding s) → s.id = r.id → j = i) →
    findFundingById l r.id = some r
  | [], i, r, hget, _ => by simp at hget
  | x :: xs, i, r, hget, huniq => by
    cases x with
    | funding s =>
      simp only [findFundingById]
      by_cases hid : s.id = r.id
      · rw [if_pos hid]
        have h0 : (0 : ℕ) = i := huniq 0 s rfl hid
        rw [← h0] at hget
        have h1 : Event.funding s = Event.funding r := by simpa using hget
        injection h1 with h2
        rw [h2]
      · rw [if_neg hid]
        cases i with
        | zero =>
          have h1 : Event.funding s = Event.funding r := by simpa using hget
          injection h1 with h2
          exact absurd (by rw [h2]) hid
        | succ k =>
          refine findFundingById_of_unique (i := k) (by simpa using hget) ?_
          intro j s' hj hid'
          have h3 := huniq (j + 1) s' (by simpa using hj) hid'
          omega
    | pool p =>
      simp only [findFundingById]
      cases i with
      | zero => simp at hget
      | succ k =>
        refine findFundingById_of_unique (i := k) (by simpa using hget) ?_
        intro j s' hj hid'
        have h3 := huniq (j + 1) s' (by simpa using hj) hid'
        omega

theorem uniqueAt_of_staticMapEq {l m : List Event} (h : l.map staticOf = m.map staticOf)
    {i : ℕ} {rid : String} (hu : UniqueFundingIdAt l i rid) : UniqueFundingIdAt m i rid := by
  intro j s hj hid
  obtain ⟨s', hj', hstat⟩ := staticMapEq_get_funding h.symm hj
  refine hu j s' hj' ?_
  have h2 : s'.id = s.id := by
    have h3 := congrArg FundingStatic.id hstat
    simpa [staticOfRound] using h3
  rw [h2, hid]

theorem pairwise_get_lt {S : Event → Event → Prop} : ∀ {l : List Event}, l.Pairwise S →
    ∀ (i j : ℕ) {a b : Event}, i < j → l.get? i = some a → l.get? j = some b → S a b := by
  intro l hp
  induction hp with
  | nil => intro i j a b _ hi _; simp at hi
  | @cons x xs hx hxs ih =>
    intro i j a b hij hi hj
    cases i with
    | zero =>
      cases j with
      | zero => omega
      | succ k =>
        have ha : x = a := by simpa using hi
        subst ha
        exact hx b (List.get?_mem (by simpa using hj))
    | succ i' =>
      cases j with
      | zero => omega
      | succ k => exact ih i' k (by omega) (by simpa using hi) (by simpa using hj)


/-! C1 helpers: the GoodShape invariant -/

theorem goodShape_applyValuation (r : FundingRound) (cv : ℚ) :
    GoodShape (Event.funding (applyValuation r cv)) := by
  intro r' heq hsrc hcv
  injection heq with h
  subst h
  cases r with
  | mk i n c inv vt vs mv rid d cv0 pre post nin ct o =>
    cases vt
    · simp only [applyValuation] at hcv ⊢
      subst hcv
      norm_num
    · simp only [applyValuation] at hcv ⊢
      subst hcv
      norm_num

theorem goodShape_pool (p : OptionPool) : GoodShape (Event.pool p) := by
  intro r' heq
  exact Event.noConfusion heq

theorem goodShape_seedEvent (e : Event) : GoodShape (seedEvent e) := by
  cases e with
  | pool p => exact goodShape_pool p
  | funding r => exact goodShape_applyValuation r _

theorem goodShape_resolveStep (rates : ExchangeRates) (m : List Event) (e : Event)
    (h : GoodShape e) : GoodShape (resolveStep rates m e).1 := by
  cases e with
  | pool p => exact h
  | funding r =>
    simp only [resolveStep]
    repeat' split
    all_goals first
      | exact h
      | exact goodShape_applyValuation _ _

theorem goodShape_resolvePassAux (rates : ExchangeRates) :
    ∀ (rest acc : List Event) (flag : Bool),
    (∀ e ∈ acc, GoodShape e) → (∀ e ∈ rest, GoodShape e) →
    ∀ e ∈ (resolvePassAux rates acc rest flag).1, GoodShape e
  | [], acc, flag, ha, _ => by simpa [resolvePassAux] using ha
  | x :: rest, acc, flag, ha, hr => by
    simp only [resolvePassAux]
    refine goodShape_resolvePassAux rates rest _ _ ?_ ?_
    · intro e he
      rcases List.mem_append.mp he with h1 | h1
      · exact ha e h1
      · rcases List.mem_singleton.mp h1 with rfl
        exact goodShape_resolveStep _ _ _ (hr x (List.mem_cons_self _ _))
    · intro e he
      exact hr e (List.mem_cons_of_mem _ he)

theorem goodShape_resolveLoop (rates : ExchangeRates) :
    ∀ (n : ℕ) (l : List Event), (∀ e ∈ l, GoodShape e) →
    ∀ e ∈ resolveLoop rates n l, GoodShape e
  | 0, l, h => h
  | n+1, l, h => by
    have hp : ∀ e ∈ (resolvePass rates l).1, GoodShape e :=
      goodShape_resolvePassAux rates l [] false (by simp) h
    simp only [resolveLoop]
    split
    · exact goodShape_resolveLoop rates n _ hp
    · exact hp

/-! C1 helpers: stuck rounds are never updated -/

theorem resolveStep_stuck (rates : ExchangeRates) {m : List Event} {r : FundingRound}
    (h : findFundingById m r.referenceRoundId = none ∨
         (findFundingById m r.referenceRoundId = some r ∧ selectRefVal r r ≤ 0)) :
    (resolveStep rates m (Event.funding r)).1 = Event.funding r := by
  simp only [resolveStep]
  split
  · rcases h with hn | ⟨hs, hsel⟩
    · rw [hn]
    · rw [hs]
      simp only []
      split
      · rw [if_neg (not_lt.mpr hsel)]
      · rfl
  · rfl

theorem get?_append_cons_ne {α : Type} (acc rest : List α) (x y : α) {i : ℕ}
    (h : i ≠ acc.length) :
    (acc ++ x :: rest).get? i = (acc ++ y :: rest).get? i := by
  rcases lt_or_gt_of_ne h with hlt | hgt
  · rw [List.get?_append hlt, List.get?_append hlt]
  · have h1 : acc.length ≤ i := le_of_lt hgt
    rw [List.get?_append_right h1, List.get?_append_right h1]
    have h2 : i - acc.length = (i - acc.length - 1) + 1 := by omega
    rw [h2]
    simp

theorem resolvePassAux_stuck (rates : ExchangeRates) {seeded : List Event} {i : ℕ}
    {r₀ : FundingRound} (hstuck : StuckAt seeded i r₀) :
    ∀ (rest acc : List Event) (flag : Bool),
    (acc ++ rest).map staticOf = seeded.map staticOf →
    (acc ++ rest).get? i = some (Event.funding r₀) →
    (resolvePassAux rates acc rest flag).1.map staticOf = seeded.map staticOf ∧
    (resolvePassAux rates acc rest flag).1.get? i = some (Event.funding r₀)
  | [], acc, flag, hst, hget => by
    constructor
    · simpa [resolvePassAux] using hst
    · simpa [resolvePassAux] using hget
  | e :: rest, acc, flag, hst, hget => by
    by_cases hi : acc.length = i
    · have he : e = Event.funding r₀ := by
        have h1 : (acc ++ e :: rest).get? acc.length = some e := by
          rw [List.get?_append_right (le_refl _)]
          simp
        rw [hi, hget] at h1
        exact (Option.some.injEq _ _ ▸ h1).symm
      subst he
      have hupd : (resolveStep rates (acc ++ Event.funding r₀ :: rest) (Event.funding r₀)).1
          = Event.funding r₀ :=
        resolveStep_stuck rates (hstuck _ hst hget)
      simp only [resolvePassAux, hupd]
      refine resolvePassAux_stuck rates hstuck rest (acc ++ [Event.funding r₀]) _ ?_ ?_
      · simpa [List.append_assoc] using hst
      · simpa [List.append_assoc] using hget
    · simp only [resolvePassAux]
      have hstat_step : staticOf (resolveStep rates (acc ++ e :: rest) e).1 = staticOf e :=
        staticOf_resolveStep rates _ e
      refine resolvePassAux_stuck rates hstuck rest
        (acc ++ [(resolveStep rates (acc ++ e :: rest) e).1]) _ ?_ ?_
      · rw [List.append_assoc]
        simp only [List.singleton_append, List.map_append, List.map_cons, hstat_step]
        simpa [List.map_append, List.map_cons] using hst
      · rw [List.append_assoc, List.singleton_append,
          get?_append_cons_ne acc rest _ e (fun hh => hi hh.symm)]
        exact hget

theorem resolveLoop_stuck (rates : ExchangeRates) {seeded : List Event} {i : ℕ}
    {r₀ : FundingRound} (hstuck : StuckAt seeded i r₀) :
    ∀ (n : ℕ) (m : List Event),
    m.map staticOf = seeded.map staticOf →
    m.get? i = some (Event.funding r₀) →
    (resolveLoop rates n m).map staticOf = seeded.map staticOf ∧
    (resolveLoop rates n m).get? i = some (Event.funding r₀)
  | 0, m, h1, h2 => ⟨h1, h2⟩
  | n+1, m, h1, h2 => by
    have hp := resolvePassAux_stuck rates hstuck m [] false (by simpa using h1)
      (by simpa using h2)
    simp only [resolveLoop]
    split
    · exact resolveLoop_stuck rates hstuck n _ hp.1 hp.2
    · exact hp

/-! C1 helpers: reading off the cap-table pass -/

theorem capTablePass_get : ∀ (l : List Event) (ct : List Shareholder) (i : ℕ) (e' : Event),
    (capTablePass ct l).get? i = some e' →
    ∃ (e : Event) (ct' : List Shareholder), l.get? i = some e ∧
      e' = setCapTable e (applyEventTable e ct') ∧
      ((i = 0 ∧ ct' = ct) ∨
       (∃ (j : ℕ) (ep : Event), i = j + 1 ∧ (capTablePass ct l).get? j = some ep ∧
         ct' = ep.capTable))
  | [], ct, i, e', h => by simp [capTablePass] at h
  | e :: rest, ct, 0, e', h => by
    refine ⟨e, ct, rfl, ?_, Or.inl ⟨rfl, rfl⟩⟩
    have h1 : some (setCapTable e (applyEventTable e ct)) = some e' := by
      simpa [capTablePass] using h
    simpa using h1.symm
  | e :: rest, ct, j + 1, e', h => by
    have h1 : (capTablePass (applyEventTable e ct) rest).get? j = some e' := by
      simpa [capTablePass] using h
    obtain ⟨e2, ct', hget, heq, hcase⟩ := capTablePass_get rest (applyEventTable e ct) j e' h1
    refine ⟨e2, ct', by simpa using hget, heq, Or.inr ?_⟩
    rcases hcase with ⟨hj0, hct⟩ | ⟨k, ep, hk, hgetk, hct⟩
    · subst hj0
      refine ⟨0, setCapTable e (applyEventTable e ct), rfl, by simp [capTablePass], ?_⟩
      rw [hct, setCapTable_capTable]
    · subst hk
      refine ⟨k + 1, ep, rfl, ?_, hct⟩
      simpa [capTablePass] using hgetk

/-! C1 helpers: unresolved rounds are cap-table no-ops -/

theorem calcFR_passthrough {r : FundingRound} (prev : List Shareholder)
    (hpost : r.postMoneyValuation =
      (match r.valuationType with
       | ValuationType.preMoney => r.investmentAmount
       | ValuationType.postMoney => 0)) :
    calculateCapTableForFundingRound r prev = prev := by
  cases hvt : r.valuationType
  case postMoney =>
    rw [hvt] at hpost
    unfold calculateCapTableForFundingRound
    rw [if_pos (Or.inl (le_of_eq hpost))]
  case preMoney =>
    rw [hvt] at hpost
    unfold calculateCapTableForFundingRound
    rcases le_or_lt r.investmentAmount 0 with hi | hi
    · rw [if_pos (Or.inr hi)]
    · have hpct : r.investmentAmount / r.postMoneyValuation * 100 = 100 := by
        rw [hpost, div_self (ne_of_gt hi)]
        norm_num
      rw [if_neg (by push_neg; exact ⟨by rw [hpost]; exact hi, hi⟩),
        if_pos (Or.inr (le_of_eq hpct.symm))]

theorem seedRound_ref_shape (r : FundingRound)
    (h : r.valuationSource = ValuationSource.reference) :
    (seedRound r).calculatedValuation = 0 ∧ selectRefVal (seedRound r) (seedRound r) ≤ 0 := by
  cases r with
  | mk i n c inv vt vs mv rid d cv pre post nin ct o =>
    simp only at h
    subst h
    cases vt <;> simp [seedRound, applyValuation, selectRefVal]


/-! ### Claim C1 -/

/-- Claim C1 (amended): for every recalculated event list, any output
funding round with `valuationSource = reference` whose reference is
unresolvable — its `referenceRoundId` matches no funding round of the
input, or names the round itself (with unique ids), or the round simply
ends the bounded passes with `calculatedValuation = 0` — keeps
`calculatedValuation = 0` and `preMoneyValuation = 0` (given a
non-negative investment amount, per the data model), has
`postMoneyValuation` equal to its `investmentAmount` for a pre-money
round and `0` for a post-money round, and carries the previous event's
cap table unchanged (the founder baseline for the first event). -/
theorem c1_unresolvable_reference (rates : ExchangeRates) (events : List Event)
    (founder : String) (i : ℕ) (r' : FundingRound)
    (hout : (recalculateAllEvents rates events founder).get? i = some (Event.funding r'))
    (hsrc : r'.valuationSource = ValuationSource.reference)
    (hinv : 0 ≤ r'.investmentAmount)
    (hcase : (∀ e ∈ events, ¬ eventIsFundingWithId e r'.referenceRoundId)
           ∨ (r'.referenceRoundId = r'.id ∧ events.Pairwise (fun a b => a.id ≠ b.id))
           ∨ r'.calculatedValuation = 0) :
    r'.calculatedValuation = 0 ∧ r'.preMoneyValuation = 0 ∧
    r'.postMoneyValuation =
      (match r'.valuationType with
       | ValuationType.preMoney => r'.investmentAmount
       | ValuationType.postMoney => 0) ∧
    (i = 0 → r'.capTable = getInitialCapTable founder) ∧
    (∀ j : ℕ, i = j + 1 →
      ∃ ep : Event, (recalculateAllEvents rates events founder).get? j = some ep ∧
        r'.capTable = ep.capTable) := by
  have hout' := hout
  unfold recalculateAllEvents at hout'
  obtain ⟨e, ct', hres, heq, hprev⟩ := capTablePass_get _ _ i _ hout'
  cases e with
  | pool p => exact absurd heq (by simp [setCapTable, applyEventTable])
  | funding r2 =>
    have hr' : r' = { r2 with capTable := calculateCapTableForFundingRound r2 ct' } := by
      have h1 := heq
      simp only [setCapTable, applyEventTable] at h1
      injection h1
    have hsrc2 : r2.valuationSource = ValuationSource.reference := by
      rw [hr'] at hsrc
      exact hsrc
    have hinv2 : (0 : ℚ) ≤ r2.investmentAmount := by
      rw [hr'] at hinv
      exact hinv
    have hstatics : (resolveLoop rates 10 ((sortByOrder events).map seedEvent)).map staticOf
        = ((sortByOrder events).map seedEvent).map staticOf := resolveLoop_statics rates 10 _
    obtain ⟨r₀, hseedget, hstat0⟩ := staticMapEq_get_funding hstatics hres
    have horig : ∃ orig : FundingRound,
        (sortByOrder events).get? i = some (Event.funding orig) ∧ r₀ = seedRound orig := by
      have h1 : ((sortByOrder events).map seedEvent).get? i = some (Event.funding r₀) :=
        hseedget
      rw [List.get?_map] at h1
      cases ha : (sortByOrder events).get? i with
      | none => rw [ha] at h1; simp at h1
      | some a =>
        rw [ha] at h1
        have h2 : seedEvent a = Event.funding r₀ := by simpa using h1
        cases a with
        | pool p => exact absurd h2 (by simp [seedEvent])
        | funding orig =>
          refine ⟨orig, rfl, ?_⟩
          injection h2 with h3
          exact h3.symm
    obtain ⟨orig, hsorted_get, hr₀⟩ := horig
    have hvs0 : r₀.valuationSource = r2.valuationSource := by
      have h1 := congrArg FundingStatic.valuationSource hstat0
      simpa [staticOfRound] using h1
    have hid0 : r₀.id = r2.id := by
      have h1 := congrArg FundingStatic.id hstat0
      simpa [staticOfRound] using h1
    have hrid0 : r₀.referenceRoundId = r2.referenceRoundId := by
      have h1 := congrArg FundingStatic.referenceRoundId hstat0
      simpa [staticOfRound] using h1
    have horig_src : orig.valuationSource = ValuationSource.reference := by
      have h1 : staticOfRound (seedRound orig) = staticOfRound orig :=
        staticOf_applyValuation orig _
      have h2 := congrArg FundingStatic.valuationSource h1
      simp only [staticOfRound] at h2
      rw [← h2, ← hr₀, hvs0]
      exact hsrc2
    have hshape := seedRound_ref_shape orig horig_src
    rw [← hr₀] at hshape
    have hcv2 : r2.calculatedValuation = 0 := by
      rcases hcase with hnone | ⟨hself, huniqp⟩ | hc
      · have hrid' : r₀.referenceRoundId = r'.referenceRoundId := by
          rw [hrid0, hr']
        have hstuck : StuckAt ((sortByOrder events).map seedEvent) i r₀ := by
          intro m hm _
          left
          apply find_none_of_no_id
          rw [hrid']
          have hseed_no : ∀ e ∈ (sortByOrder events).map seedEvent,
              ¬ eventIsFundingWithId e r'.referenceRoundId := by
            intro e he
            rcases List.mem_map.mp he with ⟨a, ha, rfl⟩
            rw [eventIsFundingWithId_static (staticOf_seedEvent a) _]
            exact hnone a (mem_sortByOrder.mp ha)
          exact no_funding_id_of_staticMapEq hm.symm hseed_no
        have hfinal := (resolveLoop_stuck rates hstuck 10 _ rfl hseedget).2
        rw [hres] at hfinal
        have h4 : Event.funding r2 = Event.funding r₀ := by simpa using hfinal
        injection h4 with h5
        rw [← h5] at hshape
        exact hshape.1
      · have hstuck : StuckAt ((sortByOrder events).map seedEvent) i r₀ := by
          intro m hm hmi
          right
          refine ⟨?_, hshape.2⟩
          have hself0 : r₀.referenceRoundId = r₀.id := by
            have ha : r'.referenceRoundId = r2.referenceRoundId := by rw [hr']
            have hb : r'.id = r2.id := by rw [hr']
            rw [hrid0, ← ha, hself, hb, ← hid0]
          rw [hself0]
          apply findFundingById_of_unique hmi
          apply uniqueAt_of_staticMapEq hm.symm
          intro j s hj hid
          by_contra hne
          have hpair_seed : ((sortByOrder events).map seedEvent).Pairwise
              (fun a b => a.id ≠ b.id) := by
            have hp1 : (sortByOrder events).Pairwise (fun a b => a.id ≠ b.id) := by
              refine ((sortByOrder_perm events).pairwise_iff ?_).mpr huniqp
              intro a b hab hba
              exact hab hba.symm
            refine List.pairwise_map.mpr ?_
            refine hp1.imp ?_
            intro a b hab
            rw [seedEvent_id, seedEvent_id]
            exact hab
          rcases lt_or_gt_of_ne hne with hlt | hgt
          · exact (pairwise_get_lt hpair_seed j i hlt hj hseedget)
              (by simpa [Event.id] using hid)
          · exact (pairwise_get_lt hpair_seed i j hgt hseedget hj)
              (by simpa [Event.id] using hid.symm)
        have hfinal := (resolveLoop_stuck rates hstuck 10 _ rfl hseedget).2
        rw [hres] at hfinal
        have h4 : Event.funding r2 = Event.funding r₀ := by simpa using hfinal
        injection h4 with h5
        rw [← h5] at hshape
        exact hshape.1
      · rw [hr'] at hc
        exact hc
    have hGS : ∀ e ∈ resolveLoop rates 10 ((sortByOrder events).map seedEvent),
        GoodShape e := by
      refine goodShape_resolveLoop rates 10 _ ?_
      intro e he
      rcases List.mem_map.mp he with ⟨a, _, rfl⟩
      exact goodShape_seedEvent a
    have hmem : Event.funding r2 ∈ resolveLoop rates 10 ((sortByOrder events).map seedEvent) :=
      List.get?_mem hres
    obtain ⟨hpre2, hpost2, _⟩ := hGS _ hmem r2 rfl hsrc2 hcv2
    refine ⟨?_, ?_, ?_, ?_, ?_⟩
    · rw [hr']
      exact hcv2
    · rw [hr']
      show r2.preMoneyValuation = 0
      rw [hpre2]
      cases hv : r2.valuationType
      · rfl
      · have h6 : (0 : ℚ) - r2.investmentAmount ≤ 0 := by linarith
        show max 0 (0 - r2.investmentAmount) = 0
        exact max_eq_left h6
    · rw [hr']
      exact hpost2
    · intro hi0
      subst hi0
      rcases hprev with ⟨_, hct⟩ | ⟨j, ep, hj, _⟩
      · rw [hr']
        show calculateCapTableForFundingRound r2 ct' = getInitialCapTable founder
        rw [calcFR_passthrough _ hpost2, hct]
      · omega
    · intro j hj
      subst hj
      rcases hprev with ⟨h0, _⟩ | ⟨k, ep, hk, hgetk, hct⟩
      · omega
      · have hjk : j = k := by omega
        subst hjk
        refine ⟨ep, ?_, ?_⟩
        · show (capTablePass (getInitialCapTable founder)
            (resolveLoop rates 10 ((sortByOrder events).map seedEvent))).get? j = some ep
          exact hgetk
        · rw [hr']
          show calculateCapTableForFundingRound r2 ct' = ep.capTable
          rw [calcFR_passthrough _ hpost2, hct]


theorem c1_eval :
    recalculateAllEvents defaultRates [Event.funding c1round] "F" = [Event.funding c1out] := by
  norm_num [recalculateAllEvents, sortByOrder, insertByOrder, seedEvent, seedRound,
    applyValuation, resolveLoop, resolvePass, resolvePassAux, resolveStep, capTablePass,
    applyEventTable, calculateCapTableForFundingRound, setCapTable, getInitialCapTable,
    findFundingById, jsRound, c1round, c1out, defaultRates, manual_ne_reference,
    show ("b" : String) ≠ "nope" from by decide,
    Shareholder.mk.injEq, FundingRound.mk.injEq, List.filterMap_cons, List.filterMap_nil]

/-- Counterexample for C1 as stated: a pre-money reference round with
`investmentAmount = 5` whose `referenceRoundId` (`"nope"`) matches no
event ends recalculation with `postMoneyValuation = 5 ≠ 0` (its
calculated and pre-money valuations do stay `0` and its cap table is the
untouched founder baseline). -/
theorem c1_counterexample :
    recalculateAllEvents defaultRates [Event.funding c1round] "F" = [Event.funding c1out] ∧
    c1out.valuationSource = ValuationSource.reference ∧
    c1round.referenceRoundId = "nope" ∧
    ¬ eventIsFundingWithId (Event.funding c1round) "nope" ∧
    c1out.postMoneyValuation ≠ 0 := by
  refine ⟨c1_eval, rfl, rfl, ?_, ?_⟩
  · decide
  · norm_num [c1out, c1round]

/-- Witness for C1's amended theorem at the concrete missing-target round
`c1round`. -/
theorem c1_witness :
    c1out.calculatedValuation = 0 ∧ c1out.preMoneyValuation = 0 ∧
    c1out.postMoneyValuation =
      (match c1out.valuationType with
       | ValuationType.preMoney => c1out.investmentAmount
       | ValuationType.postMoney => 0) ∧
    ((0 : ℕ) = 0 → c1out.capTable = getInitialCapTable "F") ∧
    (∀ j : ℕ, (0 : ℕ) = j + 1 →
      ∃ ep : Event, (recalculateAllEvents defaultRates [Event.funding c1round] "F").get? j
          = some ep ∧ c1out.capTable = ep.capTable) :=
  c1_unresolvable_reference defaultRates [Event.funding c1round] "F" 0 c1out
    (by rw [c1_eval]; rfl)
    rfl
    (by norm_num [c1out, c1round])
    (Or.inl (by
      intro e he
      rcases List.mem_singleton.mp he with rfl
      decide))

end CapModel
